import Mathlib

/-!
Verification of the NOI parse pipeline of the dob-abatement-saas repository.

The definitions below are a shallow embedding of the TypeScript source:
* `src/lib/parse-logger.ts` — the ParseLogger (Progress Ledger): in-memory step
  upsert (`upsertStep`), the flush-time merge of persisted and in-memory steps,
  and the `parse_status` derivation.
* `src/lib/status-transitions.ts` — the violation business-status state machine.
* `src/app/(authenticated)/layout.tsx` — the parseNOI pipeline's pure helpers:
  `parseFine`, `parseDate`, the abatement-deadline and priority rollups, and the
  match-photos step (code normalization, first-match lookup, photo-row inserts,
  matched/unmatched counters).

JavaScript strings are modelled as Lean `String`/`List Char`; nullable strings
as `Option String` with JS truthiness (`null`/`""` falsy) made explicit; machine
numbers as `Int`/`Nat`/`ℚ` (the values involved are exact decimals and day
counts, far from any floating-point edge); database writes as pure lists of row
values.
-/

namespace DobAbatement

/-- JS truthiness of a nullable string: `null` and `""` are falsy. -/
def strTruthy : Option String → Bool
  | none => false
  | some s => s ≠ ""

/-! ## Progress Ledger (src/lib/parse-logger.ts) -/

/-- Step status values, from `ParseStepStatus.status` in `src/lib/ai/schemas.ts`. -/
inductive StepState
  | pending
  | running
  | completed
  | failed
deriving DecidableEq, Repr

/-- One entry of `parse_metadata.steps`, from `ParseStepStatus` in
`src/lib/ai/schemas.ts`. The step name is kept as a string, as in the source. -/
structure StepStatus where
  step : String
  status : StepState
  message : Option String := none
  started_at : Option String := none
  completed_at : Option String := none
deriving DecidableEq, Repr

/-- The `stepData` object built at the top of `ParseLogger.upsertStep`
(parse-logger.ts lines 125-131): `started_at` is stamped only for `running`,
`completed_at` only for `completed`/`failed`. `now` stands for
`new Date().toISOString()`. -/
def mkStepData (stepName : String) (status : StepState) (message : Option String)
    (now : String) : StepStatus :=
  { step := stepName
    status := status
    message := message
    started_at := if status = StepState.running then some now else none
    completed_at :=
      if status = StepState.completed ∨ status = StepState.failed then some now else none }

/-- The in-memory upsert of `ParseLogger.upsertStep` (parse-logger.ts lines
132-140): replace the first entry with the same step name — preserving a truthy
`started_at` when the new data carries a falsy one — else push at the end. -/
def upsertInto : List StepStatus → StepStatus → List StepStatus
  | [], stepData => [stepData]
  | s :: rest, stepData =>
    if s.step = stepData.step then
      (if strTruthy s.started_at && !(strTruthy stepData.started_at) then
        { stepData with started_at := s.started_at }
      else stepData) :: rest
    else s :: upsertInto rest stepData

/-- `ParseLogger.upsertStep` (parse-logger.ts lines 123-141). -/
def upsertStep (steps : List StepStatus) (stepName : String) (status : StepState)
    (message : Option String) (now : String) : List StepStatus :=
  upsertInto steps (mkStepData stepName status message now)

/-- One iteration of the flush-time step merge (parse-logger.ts lines 163-170):
the in-memory step replaces the first persisted entry with the same name
wholesale, else is pushed at the end. Unlike `upsertInto`, there is no
`started_at` preservation here. -/
def mergeStepOne : List StepStatus → StepStatus → List StepStatus
  | [], step => [step]
  | s :: rest, step => if s.step = step.step then step :: rest else s :: mergeStepOne rest step

/-- The full flush-time step merge (parse-logger.ts lines 161-170): fold the
in-memory steps, in order, into the persisted steps. -/
def mergeSteps (existingSteps memSteps : List StepStatus) : List StepStatus :=
  memSteps.foldl mergeStepOne existingSteps

/-- The `parse_status` derivation of `ParseLogger.flush` when no explicit status
is forced (parse-logger.ts lines 186-194). `current` is the value left in place
when none of the three conditions fires (the code then simply omits the column
from the update). -/
def derivedParseStatus (mergedSteps : List StepStatus) (current : String) : String :=
  if mergedSteps.any (fun s => s.status == StepState.failed) then "failed"
  else if decide (0 < mergedSteps.length)
      && mergedSteps.all (fun s => s.status == StepState.completed) then "completed"
  else if mergedSteps.any (fun s => s.status == StepState.running) then "processing"
  else current

/-- The `parse_status` written by `ParseLogger.flush` (parse-logger.ts lines
183-194): a forced value (the optional `parseStatus` argument) wins, otherwise
the derivation from the merged steps applies. -/
def flushParseStatus (forced : Option String) (mergedSteps : List StepStatus)
    (current : String) : String :=
  match forced with
  | some s => s
  | none => derivedParseStatus mergedSteps current

/-- The five known step names, from `ParseStepName` in `src/lib/ai/schemas.ts`. -/
def knownStepNames : List String :=
  ["ai_parse", "insert_records", "analyze_pages", "match_photos", "complete"]

/-- Modelled from the spec (claim C1's words): `parse_status` is "failed" if any
merged step failed; otherwise "completed" iff ALL FIVE known step names are
completed; otherwise "processing" if any merged step is running; otherwise
unchanged. Stated for comparison with `derivedParseStatus`. -/
def claimedParseStatus (steps : List StepStatus) (current : String) : String :=
  if steps.any (fun s => s.status == StepState.failed) then "failed"
  else if knownStepNames.all
      (fun n => steps.any (fun s => s.step == n && s.status == StepState.completed)) then
    "completed"
  else if steps.any (fun s => s.status == StepState.running) then "processing"
  else current

/-- The amended derivation, written relationally: "completed" requires only that
the merged collection itself is non-empty and all of ITS steps are completed —
the code never consults the full set of known step names. -/
def amendedParseStatus (steps : List StepStatus) (current : String) : String :=
  if ∃ s ∈ steps, s.status = StepState.failed then "failed"
  else if steps ≠ [] ∧ ∀ s ∈ steps, s.status = StepState.completed then "completed"
  else if ∃ s ∈ steps, s.status = StepState.running then "processing"
  else current

/-! ## Violation business-status state machine (src/lib/status-transitions.ts) -/

/-- The `ViolationStatus` enum (src/lib/types.ts, mirrored in the SQL schema). -/
inductive ViolationStatus
  | NEW
  | PARSING
  | PARSED
  | ASSIGNED
  | IN_PROGRESS
  | AWAITING_PHOTOS
  | PHOTOS_UPLOADED
  | READY_FOR_SUBMISSION
  | SUBMITTED
  | APPROVED
  | REJECTED
  | ADDITIONAL_INFO_REQUESTED
  | CLOSED
deriving DecidableEq, Repr, Fintype

/-- The `VALID_TRANSITIONS` allow-list (status-transitions.ts lines 4-18). -/
def VALID_TRANSITIONS : ViolationStatus → List ViolationStatus
  | .NEW => [.PARSING, .ASSIGNED, .CLOSED]
  | .PARSING => [.PARSED, .NEW]
  | .PARSED => [.ASSIGNED, .CLOSED]
  | .ASSIGNED => [.IN_PROGRESS, .CLOSED]
  | .IN_PROGRESS => [.AWAITING_PHOTOS, .CLOSED]
  | .AWAITING_PHOTOS => [.PHOTOS_UPLOADED, .IN_PROGRESS]
  | .PHOTOS_UPLOADED => [.READY_FOR_SUBMISSION, .AWAITING_PHOTOS]
  | .READY_FOR_SUBMISSION => [.SUBMITTED, .AWAITING_PHOTOS]
  | .SUBMITTED => [.APPROVED, .REJECTED, .ADDITIONAL_INFO_REQUESTED]
  | .APPROVED => [.CLOSED]
  | .REJECTED => [.IN_PROGRESS]
  | .ADDITIONAL_INFO_REQUESTED => [.AWAITING_PHOTOS, .IN_PROGRESS]
  | .CLOSED => []

/-- `canTransition` (status-transitions.ts lines 20-22). -/
def canTransition (f t : ViolationStatus) : Bool :=
  (VALID_TRANSITIONS f).contains t

/-- The step names of a steps collection, in order. -/
def stepNames (l : List StepStatus) : List String := l.map (fun s => s.step)

/-- The first entry of a steps collection carrying a given step name — the entry
`findIndex` locates in `upsertStep` and in the flush merge. -/
def firstWith (n : String) (l : List StepStatus) : Option StepStatus :=
  l.find? (fun s => s.step == n)

/-- A persisted `ai_parse` step carrying the original start timestamp:
concrete input for claim C2. -/
def c2Persisted : StepStatus :=
  { step := "ai_parse", status := StepState.completed, message := some "old",
    started_at := some "2025-01-01T00:00:00.000Z",
    completed_at := some "2025-01-01T00:01:00.000Z" }

/-- An in-memory `ai_parse` step of the same name with no `started_at`:
concrete input for claim C2. -/
def c2Incoming : StepStatus :=
  { step := "ai_parse", status := StepState.completed, message := some "new",
    started_at := none,
    completed_at := some "2025-01-02T00:00:00.000Z" }

/-- A persisted collection with distinct step names: concrete input for the
claim C6 witness. -/
def c6Existing : List StepStatus :=
  [{ step := "ai_parse", status := StepState.running,
     started_at := some "2025-01-01T00:00:00.000Z" }]

/-- An in-memory collection with distinct step names, re-entering `ai_parse`:
concrete input for the claim C6 witness. -/
def c6Mem : List StepStatus :=
  [{ step := "ai_parse", status := StepState.completed,
     completed_at := some "2025-01-01T00:01:00.000Z" },
   { step := "insert_records", status := StepState.running,
     started_at := some "2025-01-01T00:01:01.000Z" }]

/-- A persisted steps collection in which only `ai_parse` appears, completed:
concrete input for claim C1. -/
def c1CexSteps : List StepStatus :=
  [{ step := "ai_parse", status := StepState.completed, message := some "done",
     started_at := some "2025-01-01T00:00:00.000Z",
     completed_at := some "2025-01-01T00:00:05.000Z" }]

/-! ## Pure helpers of the insert_records step (src/app/(authenticated)/layout.tsx) -/

/-- Value of a run of decimal digits. -/
def digitsVal (l : List Char) : Nat :=
  l.foldl (fun acc c => acc * 10 + (c.toNat - '0'.toNat)) 0

/-- Split an optional leading `-`/`+` sign off a character list. -/
def splitSignInt (l : List Char) : Int × List Char :=
  match l with
  | c :: r => if c = '-' then (-1, r) else if c = '+' then (1, l.tail) else (1, l)
  | [] => (1, [])

/-- JS `parseInt(s)` in base 10, as used on `wo.abatement_deadline`
(layout.tsx line 971): skip leading whitespace, read an optional sign and then
the longest leading digit run; NaN (`none`) when no digit follows. -/
def parseIntJS (s : String) : Option Int :=
  let p := splitSignInt (s.toList.dropWhile (fun c => c.isWhitespace))
  let ds := p.2.takeWhile (fun c => c.isDigit)
  if ds.isEmpty then none else some (p.1 * (digitsVal ds : Int))

/-- Per-item deadline days, `parseInt(wo.abatement_deadline) || 60`
(layout.tsx line 971): NaN and 0 are falsy, so each item that does not parse to
a nonzero number contributes the default 60. -/
def deadlineDaysOfItem (deadlineText : String) : Int :=
  match parseIntJS deadlineText with
  | none => 60
  | some n => if n = 0 then 60 else n

/-- JS `Math.min(...xs)` over a list of arguments; `none` stands for the
Infinity returned on an empty argument list. -/
def jsMathMin : List Int → Option Int
  | [] => none
  | x :: xs => some (xs.foldl min x)

/-- The `shortestDeadline` value of layout.tsx lines 970-972. -/
def shortestDeadline (deadlineTexts : List String) : Option Int :=
  jsMathMin (deadlineTexts.map deadlineDaysOfItem)

/-- Days since 1970-01-01 of a proleptic Gregorian civil date — the day-number
conversion underlying JS `Date` (UTC). -/
def daysFromCivil (y m d : Int) : Int :=
  let y2 := if m ≤ 2 then y - 1 else y
  let era := (if 0 ≤ y2 then y2 else y2 - 399) / 400
  let yoe := y2 - era * 400
  let mp := (m + 9) % 12
  let doy := (153 * mp + 2) / 5 + d - 1
  let doe := yoe * 365 + yoe / 4 - yoe / 100 + doy
  era * 146097 + doe - 719468

/-- Civil date from days since 1970-01-01 (inverse of `daysFromCivil`). -/
def civilFromDays (z0 : Int) : Int × Int × Int :=
  let z := z0 + 719468
  let era := (if 0 ≤ z then z else z - 146096) / 146097
  let doe := z - era * 146097
  let yoe := (doe - doe / 1460 + doe / 36524 - doe / 146096) / 365
  let y := yoe + era * 400
  let doy := doe - (365 * yoe + yoe / 4 - yoe / 100)
  let mp := (5 * doy + 2) / 153
  let d := doy - (153 * mp + 2) / 5 + 1
  let m := if mp < 10 then mp + 3 else mp - 9
  (if m ≤ 2 then y + 1 else y, m, d)

/-- The date arithmetic of layout.tsx lines 973-975 under a UTC runtime:
`new Date(iso)`, `setDate(getDate() + n)`, `toISOString().split('T')[0]`
is civil-date day addition. -/
def addDays (date : Int × Int × Int) (n : Int) : Int × Int × Int :=
  civilFromDays (daysFromCivil date.1 date.2.1 date.2.2 + n)

/-- The record-level abatement deadline of the insert_records step
(layout.tsx lines 968-976) for a violation with a valid service date, given the
per-item `abatement_deadline` texts: `null` when the work-order list is empty,
else the service date plus the shortest per-item deadline. -/
def codeAbatementDeadline (service : Int × Int × Int) (deadlineTexts : List String) :
    Option (Int × Int × Int) :=
  match shortestDeadline deadlineTexts with
  | none => none
  | some n => some (addDays service n)

/-- Modelled from the spec (claim C3's words): the minimum of the per-item
deadline values THAT PARSE as numbers, with the default 60 used only when no
item deadline parses. Stated for comparison with the code's per-item default. -/
def claimedDeadlineDays (deadlineTexts : List String) : Int :=
  match jsMathMin (deadlineTexts.filterMap parseIntJS) with
  | none => 60
  | some n => n

/-- The deadline claim C1 attributes to the code, packaged like
`codeAbatementDeadline` for a non-empty work-order list. -/
def claimedAbatementDeadline (service : Int × Int × Int) (deadlineTexts : List String) :
    Option (Int × Int × Int) :=
  if deadlineTexts.isEmpty then none
  else some (addDays service (claimedDeadlineDays deadlineTexts))

/-- The record-level priority rollup
`Math.min(...work_orders.map(wo => wo.priority), 3)` (layout.tsx line 998). -/
def recordPriority (priorities : List Int) : Int :=
  match jsMathMin (priorities ++ [3]) with
  | some n => n
  | none => 3

/-- Strip `$` and `,`: `fineStr.replace(/[$,]/g, '')` (layout.tsx line 954). -/
def stripCurrency (s : String) : List Char :=
  s.toList.filter (fun c => !(c == '$' || c == ','))

/-- Split an optional leading `-`/`+` sign off a character list, rational sign. -/
def splitSignQ (l : List Char) : ℚ × List Char :=
  match l with
  | c :: _ => if c = '-' then (-1, l.tail) else if c = '+' then (1, l.tail) else (1, l)
  | [] => (1, [])

/-- The fraction digits following a leading `.`, if any. -/
def fracPart : List Char → List Char
  | c :: r => if c = '.' then r.takeWhile (fun c => c.isDigit) else []
  | [] => []

/-- The digits-and-fraction core of JS `parseFloat`: the longest leading digit
run, an optional `.`-prefixed fraction run; NaN (`none`) unless at least one
digit was read. -/
def parseFloatDigits (sign : ℚ) (l : List Char) : Option ℚ :=
  let intDs := l.takeWhile (fun c => c.isDigit)
  let fracDs := fracPart (l.dropWhile (fun c => c.isDigit))
  if intDs.isEmpty && fracDs.isEmpty then none
  else some (sign * ((digitsVal intDs : ℚ) + (digitsVal fracDs : ℚ) / (10 : ℚ) ^ fracDs.length))

/-- JS `parseFloat` on the sign/digits/fraction inputs this code feeds it (the
stripped currency strings carry no exponent part): skip leading whitespace and
an optional sign, then parse digits and fraction. -/
def parseFloatChars (l : List Char) : Option ℚ :=
  let p := splitSignQ (l.dropWhile (fun c => c.isWhitespace))
  parseFloatDigits p.1 p.2

/-- `parseFine` (layout.tsx lines 953-957): strip `$`/`,`, `parseFloat`, and
turn NaN into `null`. -/
def parseFine (s : String) : Option ℚ :=
  parseFloatChars (stripCurrency s)

/-- Whether a character list starts with a digit. -/
def headIsDigit : List Char → Bool
  | [] => false
  | e :: _ => e.isDigit

/-- A character list begins with a number in the `parseFloat` sense: a digit,
or a `.` immediately followed by a digit. -/
def startsNumber : List Char → Bool
  | [] => false
  | d :: rest => d.isDigit || (d == '.' && headIsDigit rest)

/-- The input class on which `parseFloat` succeeds: after optional whitespace
and sign, the characters start a number. -/
def hasLeadingNumber (l : List Char) : Bool :=
  startsNumber (splitSignQ (l.dropWhile (fun c => c.isWhitespace))).2

/-- JS `str.split(sep)` for a one-character separator, on the character list:
split into the (possibly empty) groups between separator occurrences. -/
def splitOnChar (sep : Char) : List Char → List (List Char)
  | [] => [[]]
  | c :: rest =>
    match splitOnChar sep rest with
    | [] => [[]]
    | grp :: rs => if c = sep then [] :: grp :: rs else (c :: grp) :: rs

/-- JS `str.split(sep)` for a one-character separator. -/
def jsSplit (s : String) (sep : Char) : List String :=
  (splitOnChar sep s.toList).map String.mk

/-- JS `padStart(2, '0')`. -/
def padStart2 (s : String) : String :=
  if 2 ≤ s.length then s
  else String.mk (List.replicate (2 - s.length) '0') ++ s

/-- `parseDate` (layout.tsx lines 959-965): empty input → `null`; split on `/`;
anything but exactly three parts → `null`; otherwise rearrange to
`year-month-day` with two-digit padding. Numeric content is NOT validated. -/
def parseDateJS (s : String) : Option String :=
  if s = "" then none
  else
    match jsSplit s '/' with
    | [month, day, year] => some (year ++ "-" ++ padStart2 month ++ "-" ++ padStart2 day)
    | _ => none

/-- Modelled from the spec (`date_of_service` is documented as `MM/DD/YYYY` in
src/lib/ai/schemas.ts): a well-formed date input has exactly three all-digit
parts with a plausible month and day and a four-digit year. Used to exhibit
malformed inputs. -/
def isValidMMDDYYYY (s : String) : Bool :=
  match jsSplit s '/' with
  | [m, d, y] =>
    !m.isEmpty && !d.isEmpty && decide (y.length = 4) &&
    m.toList.all (fun c => c.isDigit) && d.toList.all (fun c => c.isDigit) &&
    y.toList.all (fun c => c.isDigit) &&
    decide (1 ≤ digitsVal m.toList) && decide (digitsVal m.toList ≤ 12) &&
    decide (1 ≤ digitsVal d.toList) && decide (digitsVal d.toList ≤ 31)
  | _ => false

/-! ## The match_photos step (layout.tsx lines 1130-1212) -/

/-- `normalizeCode`'s whitespace collapse, `code.replace(/\s+/g, ' ')`
(layout.tsx line 1154): every run of whitespace becomes a single space. The
flag records whether the previous character was whitespace. -/
def collapseWsAux : Bool → List Char → List Char
  | _, [] => []
  | prevWs, c :: rest =>
    if c.isWhitespace then
      if prevWs then collapseWsAux true rest
      else ' ' :: collapseWsAux true rest
    else c :: collapseWsAux false rest

/-- JS `String.prototype.trim`: drop whitespace from both ends. -/
def jsTrim (l : List Char) : List Char :=
  ((l.dropWhile (fun c => c.isWhitespace)).reverse.dropWhile
    (fun c => c.isWhitespace)).reverse

/-- `normalizeCode` (layout.tsx line 1154): collapse whitespace runs, trim,
lowercase. `Char.toLower` covers the ASCII letters appearing in the codes;
characters such as `§` are unaffected, as in JS. -/
def normalizeCode (s : String) : String :=
  String.mk ((jsTrim (collapseWsAux false s.toList)).map Char.toLower)

/-- The `id, violation_code` projection of a violation_items row, as selected
at layout.tsx lines 1133-1136. Row ids are numbered abstractly. -/
structure ViolationItemRow where
  id : Nat
  violation_code : Option String
deriving DecidableEq, Repr

/-- The per-item match test of layout.tsx lines 1159-1161:
`item.violation_code && normalizeCode(item.violation_code) === normalizeCode(page.violation_code!)`. -/
def itemMatches (pageCode : String) (item : ViolationItemRow) : Bool :=
  strTruthy item.violation_code &&
    normalizeCode (item.violation_code.getD "") == normalizeCode pageCode

/-- `items.find(...)` (layout.tsx lines 1159-1161): the first item, in the
items' given order, whose normalized code equals the page's normalized code. -/
def findMatch (items : List ViolationItemRow) (pageCode : String) :
    Option ViolationItemRow :=
  items.find? (itemMatches pageCode)

/-- One page classification, from `GeminiPageAnalysisSchema` in
`src/lib/ai/schemas.ts`. -/
structure PageAnalysis where
  page_number : Int
  violation_code : Option String
  description : String
  is_evidence_photo : Bool
deriving DecidableEq, Repr

/-- The loop guard of layout.tsx line 1157:
`if (!page.is_evidence_photo || !page.violation_code) continue;` — a page
qualifies when it is an evidence photo with a truthy code. -/
def pageQualifies (p : PageAnalysis) : Bool :=
  p.is_evidence_photo && strTruthy p.violation_code

/-- One row of the `photos` insert at layout.tsx lines 1176-1187. -/
structure PhotoRow where
  org_id : String
  violation_id : String
  violation_item_id : Option Nat
  photo_type : String
  storage_path : String
  file_name : String
  page_number : Int
  matched_violation_code : Option String
  status : String
  description : String
deriving DecidableEq, Repr

/-- The photo row inserted for a qualifying page (layout.tsx lines 1176-1187):
always photo_type INSPECTOR and status APPROVED, the source PDF's storage path,
the page's number and code, and `matchedItem?.id || null` as the item link. -/
def mkPhotoRow (orgId violationId pdfStoragePath : String)
    (items : List ViolationItemRow) (p : PageAnalysis) : PhotoRow :=
  { org_id := orgId
    violation_id := violationId
    violation_item_id := (findMatch items (p.violation_code.getD "")).map (fun i => i.id)
    photo_type := "INSPECTOR"
    storage_path := pdfStoragePath
    file_name := "page_" ++ toString p.page_number ++ ".pdf"
    page_number := p.page_number
    matched_violation_code := p.violation_code
    status := "APPROVED"
    description := p.description }

/-- The observable outcome of the match_photos loop: the inserted photo rows in
page order, and the two counters flushed as `photos_matched` and
`photos_unmatched` (layout.tsx lines 1206-1208). -/
structure MatchPhotosResult where
  rows : List PhotoRow
  matchedCount : Nat
  unmatchedCount : Nat
deriving DecidableEq, Repr

/-- The match_photos loop (layout.tsx lines 1156-1194) with the database insert
modelled as always succeeding: non-qualifying pages are skipped; each
qualifying page inserts exactly one row; `matchedCount` increments on every
successful insert (NOT only on a match), `unmatchedCount` when no item
matched. -/
def runMatchPhotos (orgId violationId pdfStoragePath : String)
    (items : List ViolationItemRow) : List PageAnalysis → MatchPhotosResult
  | [] => { rows := [], matchedCount := 0, unmatchedCount := 0 }
  | p :: rest =>
    let r := runMatchPhotos orgId violationId pdfStoragePath items rest
    if pageQualifies p then
      { rows := mkPhotoRow orgId violationId pdfStoragePath items p :: r.rows
        matchedCount := r.matchedCount + 1
        unmatchedCount :=
          (if (findMatch items (p.violation_code.getD "")).isNone then 1 else 0)
            + r.unmatchedCount }
    else r

/-- Modelled from the spec (claim C5's words): the number of qualifying pages
actually matched to an item. Stated for comparison with the code's
`photos_matched` counter. -/
def pagesMatchedCount (items : List ViolationItemRow) (pages : List PageAnalysis) : Nat :=
  (pages.filter (fun p => pageQualifies p &&
    (findMatch items (p.violation_code.getD "")).isSome)).length

/-- The number of qualifying pages whose code matched no item. -/
def pagesUnmatchedCount (items : List ViolationItemRow) (pages : List PageAnalysis) : Nat :=
  (pages.filter (fun p => pageQualifies p &&
    (findMatch items (p.violation_code.getD "")).isNone)).length

/-- Claim C4's first item, whose code normalizes to the page code. -/
def c4Item1 : ViolationItemRow := { id := 1, violation_code := some "12-G DCMR § 309.1" }

/-- Claim C4's second item, with irregular whitespace AND no space after `§`. -/
def c4Item2 : ViolationItemRow := { id := 2, violation_code := some "12-G DCMR  §309.1" }

/-- Claim C4's page code. -/
def c4PageCode : String := "12-g dcmr § 309.1"

/-- Claim C5's concrete page: an evidence photo with code "X". -/
def c5Page : PageAnalysis :=
  { page_number := 1, violation_code := some "X", description := "photo",
    is_evidence_photo := true }

/-- Claim C5's concrete items list: one item whose code "Y" matches nothing. -/
def c5Items : List ViolationItemRow := [{ id := 7, violation_code := some "Y" }]

end DobAbatement

namespace DobAbatement

theorem firstWith_mergeStepOne_self (l : List StepStatus) (s : StepStatus) :
    firstWith s.step (mergeStepOne l s) = some s := by
  induction l with
  | nil => simp [mergeStepOne, firstWith, List.find?]
  | cons a t ih =>
    by_cases h : a.step = s.step
    · simp only [mergeStepOne, if_pos h]
      unfold firstWith
      rw [List.find?_cons_of_pos _ (by simp)]
    · simp only [mergeStepOne, if_neg h]
      unfold firstWith
      rw [List.find?_cons_of_neg _ (by simp [h])]
      exact ih

theorem firstWith_mergeStepOne_other (l : List StepStatus) (s : StepStatus) (n : String)
    (hn : n ≠ s.step) : firstWith n (mergeStepOne l s) = firstWith n l := by
  induction l with
  | nil =>
    show firstWith n [s] = firstWith n []
    unfold firstWith
    rw [List.find?_cons_of_neg _ (by simp [Ne.symm hn])]
  | cons a t ih =>
    by_cases h : a.step = s.step
    · simp only [mergeStepOne, if_pos h]
      unfold firstWith
      rw [List.find?_cons_of_neg _ (by simp [Ne.symm hn]),
        List.find?_cons_of_neg _ (by simp [h, Ne.symm hn])]
    · simp only [mergeStepOne, if_neg h]
      unfold firstWith at ih ⊢
      by_cases ha : a.step = n
      · rw [List.find?_cons_of_pos _ (by simp [ha]), List.find?_cons_of_pos _ (by simp [ha])]
      · rw [List.find?_cons_of_neg _ (by simp [ha]), List.find?_cons_of_neg _ (by simp [ha])]
        exact ih

theorem mergeStepOne_eq_self (l : List StepStatus) (s : StepStatus)
    (h : firstWith s.step l = some s) : mergeStepOne l s = l := by
  induction l with
  | nil => simp [firstWith, List.find?] at h
  | cons a t ih =>
    by_cases ha : a.step = s.step
    · have haeq : a = s := by
        unfold firstWith at h
        rw [List.find?_cons_of_pos _ (by simp [ha])] at h
        exact Option.some.inj h
      simp [mergeStepOne, ha, haeq]
    · unfold firstWith at h
      rw [List.find?_cons_of_neg _ (by simp [ha])] at h
      simp [mergeStepOne, ha, ih h]

theorem stepNames_mergeStepOne (l : List StepStatus) (s : StepStatus) :
    stepNames (mergeStepOne l s) =
      if s.step ∈ stepNames l then stepNames l else stepNames l ++ [s.step] := by
  induction l with
  | nil => simp [mergeStepOne, stepNames]
  | cons a t ih =>
    by_cases h : a.step = s.step
    · simp [mergeStepOne, h, stepNames]
    · simp only [mergeStepOne, if_neg h, stepNames, List.map_cons] at ih ⊢
      rw [ih]
      by_cases hm : s.step ∈ t.map (fun x => x.step)
      · simp [hm]
      · simp [hm, Ne.symm h]

theorem stepNames_nodup_mergeStepOne (l : List StepStatus) (s : StepStatus)
    (h : (stepNames l).Nodup) : (stepNames (mergeStepOne l s)).Nodup := by
  rw [stepNames_mergeStepOne]
  by_cases hm : s.step ∈ stepNames l
  · simpa [hm] using h
  · simp [hm, List.nodup_append, h]

theorem mergeSteps_cons (E : List StepStatus) (m : StepStatus) (M : List StepStatus) :
    mergeSteps E (m :: M) = mergeSteps (mergeStepOne E m) M := rfl

theorem firstWith_mergeSteps_of_not_mem (E M : List StepStatus) (n : String)
    (h : ∀ t ∈ M, n ≠ t.step) : firstWith n (mergeSteps E M) = firstWith n E := by
  induction M generalizing E with
  | nil => rfl
  | cons m M ih =>
    rw [mergeSteps_cons, ih _ (fun t ht => h t (List.mem_cons_of_mem _ ht)),
      firstWith_mergeStepOne_other _ _ _ (h m (List.mem_cons_self _ _))]

theorem firstWith_mergeSteps_self (E M : List StepStatus)
    (hM : (stepNames M).Nodup) (s : StepStatus) (hs : s ∈ M) :
    firstWith s.step (mergeSteps E M) = some s := by
  induction M generalizing E with
  | nil => cases hs
  | cons m M ih =>
    have hnames : stepNames (m :: M) = m.step :: stepNames M := by simp [stepNames]
    rw [hnames] at hM
    rcases List.mem_cons.mp hs with rfl | hs
    · have hnot : ∀ t ∈ M, s.step ≠ t.step := by
        intro t ht heq
        exact (List.nodup_cons.mp hM).1 (heq ▸ List.mem_map_of_mem (fun x => x.step) ht)
      rw [mergeSteps_cons, firstWith_mergeSteps_of_not_mem _ _ _ hnot,
        firstWith_mergeStepOne_self]
    · rw [mergeSteps_cons]
      exact ih _ (List.nodup_cons.mp hM).2 hs

theorem mergeSteps_eq_self (E M : List StepStatus)
    (h : ∀ s ∈ M, firstWith s.step E = some s) : mergeSteps E M = E := by
  induction M with
  | nil => rfl
  | cons m M ih =>
    rw [mergeSteps_cons, mergeStepOne_eq_self E m (h m (List.mem_cons_self m M))]
    exact ih (fun s hs => h s (List.mem_cons_of_mem _ hs))

theorem stepNames_nodup_mergeSteps (E M : List StepStatus)
    (hE : (stepNames E).Nodup) : (stepNames (mergeSteps E M)).Nodup := by
  induction M generalizing E with
  | nil => exact hE
  | cons m M ih =>
    rw [mergeSteps_cons]
    exact ih _ (stepNames_nodup_mergeStepOne _ _ hE)


/-- Claim C1 as stated is false: with a merged collection holding only a
completed `ai_parse` step, the code writes `parse_status = "completed"` even
though the five known step names are not all completed — the claimed derivation
would leave the status unchanged ("pending"). -/
theorem derivedParseStatus_counterexample :
    flushParseStatus none c1CexSteps "pending" = "completed" ∧
    claimedParseStatus c1CexSteps "pending" = "pending" ∧
    ("completed" : String) ≠ "pending" := by
  refine ⟨by decide, by decide, by decide⟩

/-- Claim C1 amended: for every flush not given a forced status, the written
`parse_status` is "failed" if any merged step failed; otherwise "completed" iff
the merged collection is non-empty and every step IN IT is completed (the code
never consults the full set of five known step names); otherwise "processing"
if any merged step is running; otherwise unchanged. -/
theorem derivedParseStatus_characterization (steps : List StepStatus) (current : String) :
    flushParseStatus none steps current = amendedParseStatus steps current := by
  show derivedParseStatus steps current = amendedParseStatus steps current
  unfold derivedParseStatus amendedParseStatus
  have h1 : ((steps.any fun s => s.status == StepState.failed) = true) ↔
      ∃ s ∈ steps, s.status = StepState.failed := by
    simp [List.any_eq_true]
  have h2 : ((decide (0 < steps.length)
        && steps.all fun s => s.status == StepState.completed) = true) ↔
      (steps ≠ [] ∧ ∀ s ∈ steps, s.status = StepState.completed) := by
    simp [List.all_eq_true, List.length_pos]
  have h3 : ((steps.any fun s => s.status == StepState.running) = true) ↔
      ∃ s ∈ steps, s.status = StepState.running := by
    simp [List.any_eq_true]
  by_cases hf : ∃ s ∈ steps, s.status = StepState.failed
  · rw [if_pos (h1.mpr hf), if_pos hf]
  · rw [if_neg (fun h => hf (h1.mp h)), if_neg hf]
    by_cases hc : steps ≠ [] ∧ ∀ s ∈ steps, s.status = StepState.completed
    · rw [if_pos (h2.mpr hc), if_pos hc]
    · rw [if_neg (fun h => hc (h2.mp h)), if_neg hc]
      by_cases hr : ∃ s ∈ steps, s.status = StepState.running
      · rw [if_pos (h3.mpr hr), if_pos hr]
      · rw [if_neg (fun h => hr (h3.mp h)), if_neg hr]

/-- Claim C2 as stated is false: `flush`'s merge replaces a persisted step
wholesale with the in-memory version of the same name. With a persisted
`ai_parse` step carrying `started_at = 2025-01-01T00:00:00.000Z` and an incoming
in-memory version lacking `started_at`, the merged step has no `started_at` at
all — the original timestamp is overwritten, not preserved. -/
theorem mergeSteps_drops_persisted_started_at :
    strTruthy c2Persisted.started_at = true ∧
    c2Incoming.started_at = none ∧
    c2Incoming.step = c2Persisted.step ∧
    mergeSteps [c2Persisted] [c2Incoming] = [c2Incoming] ∧
    (mergeSteps [c2Persisted] [c2Incoming]).map (fun s => s.started_at) = [none] ∧
    c2Persisted.started_at = some "2025-01-01T00:00:00.000Z" ∧
    (none : Option String) ≠ some "2025-01-01T00:00:00.000Z" := by
  exact ⟨by decide, by decide, by decide, by decide, by decide, by decide, by decide⟩

/-- Claim C2 amended: the `started_at` preservation lives in the in-memory
upsert (`upsertStep`), not in the flush merge. First conjunct: when the entry
already recorded in memory under a step name has a truthy `started_at` and the
new step data carries none, the upserted entry keeps the old `started_at`.
Second conjunct: the flush merge instead takes the in-memory version of a step
verbatim, so a `started_at` present only in the persisted version survives a
flush only if the in-memory version carries it too. -/
theorem started_at_preservation_locus :
    (∀ (steps : List StepStatus) (d s : StepStatus) (t : String),
      firstWith d.step steps = some s → s.started_at = some t → t ≠ "" →
      d.started_at = none →
      firstWith d.step (upsertInto steps d) = some { d with started_at := some t }) ∧
    (∀ (E M : List StepStatus) (s : StepStatus), (stepNames M).Nodup → s ∈ M →
      firstWith s.step (mergeSteps E M) = some s) := by
  constructor
  · intro steps d s t hfind hs ht hd
    induction steps with
    | nil => simp [firstWith, List.find?] at hfind
    | cons a rest ih =>
      by_cases ha : a.step = d.step
      · have haeq : a = s := by
          unfold firstWith at hfind
          rw [List.find?_cons_of_pos _ (by simp [ha])] at hfind
          exact Option.some.inj hfind
        subst haeq
        have hcond : (strTruthy a.started_at && !(strTruthy d.started_at)) = true := by
          rw [hs, hd]
          simp [strTruthy, ht]
        simp only [upsertInto, if_pos ha, hcond]
        unfold firstWith
        rw [List.find?_cons_of_pos _ (by simp)]
        simp [hs]
      · have hfind' : firstWith d.step rest = some s := by
          unfold firstWith at hfind
          rwa [List.find?_cons_of_neg _ (by simp [ha])] at hfind
        simp only [upsertInto, if_neg ha]
        unfold firstWith
        rw [List.find?_cons_of_neg _ (by simp [ha])]
        exact ih hfind'
  · intro E M s hM hs
    exact firstWith_mergeSteps_self E M hM s hs

/-- Witness for `started_at_preservation_locus` at concrete inputs: upserting a
`failed` update (which carries no `started_at`) over the persisted-style
in-memory entry keeps the old timestamp, and the flush merge hands back the
in-memory `ai_parse` version verbatim. -/
theorem started_at_preservation_locus_witness :
    firstWith (mkStepData "ai_parse" StepState.failed (some "boom")
        "2025-01-02T00:00:00.000Z").step
      (upsertInto [c2Persisted]
        (mkStepData "ai_parse" StepState.failed (some "boom")
          "2025-01-02T00:00:00.000Z")) =
      some { mkStepData "ai_parse" StepState.failed (some "boom")
              "2025-01-02T00:00:00.000Z" with
              started_at := some "2025-01-01T00:00:00.000Z" } ∧
    firstWith c2Incoming.step (mergeSteps [c2Persisted] [c2Incoming]) =
      some c2Incoming :=
  ⟨started_at_preservation_locus.1 [c2Persisted] _ c2Persisted
      "2025-01-01T00:00:00.000Z" (by decide) (by decide) (by decide) (by decide),
    started_at_preservation_locus.2 [c2Persisted] [c2Incoming] c2Incoming
      (by decide) (by decide)⟩

/-- Claim C6: flushing the same in-memory steps twice in a row yields the same
persisted steps collection as flushing once, and — provided the persisted and
in-memory collections are each keyed uniquely by step name, the invariant both
`upsertStep` and this merge maintain — the merged collection again has exactly
one entry per step name (re-entry updates in place, never appends a duplicate). -/
theorem mergeSteps_idempotent_and_unique (E M : List StepStatus)
    (hE : (stepNames E).Nodup) (hM : (stepNames M).Nodup) :
    mergeSteps (mergeSteps E M) M = mergeSteps E M ∧
    (stepNames (mergeSteps E M)).Nodup := by
  constructor
  · exact mergeSteps_eq_self _ _ (fun s hs => firstWith_mergeSteps_self E M hM s hs)
  · exact stepNames_nodup_mergeSteps E M hE

/-- Witness for `mergeSteps_idempotent_and_unique`: a concrete persisted
collection holding a running `ai_parse` merged with an in-memory collection
that completes `ai_parse` and starts `insert_records`. -/
theorem mergeSteps_idempotent_and_unique_witness :
    mergeSteps (mergeSteps c6Existing c6Mem) c6Mem = mergeSteps c6Existing c6Mem ∧
    (stepNames (mergeSteps c6Existing c6Mem)).Nodup :=
  mergeSteps_idempotent_and_unique c6Existing c6Mem (by decide) (by decide)

/-- Claim C8: the transition check accepts exactly the targets in the current
state's allow-list; every transition out of CLOSED is rejected (in particular
CLOSED → ASSIGNED); SUBMITTED → APPROVED is accepted; and NEW admits exactly
the set PARSING, ASSIGNED, CLOSED. -/
theorem canTransition_allow_list_characterization :
    (∀ f t : ViolationStatus, canTransition f t = true ↔ t ∈ VALID_TRANSITIONS f) ∧
    (∀ t : ViolationStatus, canTransition ViolationStatus.CLOSED t = false) ∧
    canTransition ViolationStatus.CLOSED ViolationStatus.ASSIGNED = false ∧
    canTransition ViolationStatus.SUBMITTED ViolationStatus.APPROVED = true ∧
    (∀ t : ViolationStatus, canTransition ViolationStatus.NEW t = true ↔
      (t = ViolationStatus.PARSING ∨ t = ViolationStatus.ASSIGNED ∨
        t = ViolationStatus.CLOSED)) := by
  refine ⟨?_, ?_, ?_, ?_, ?_⟩ <;> decide

end DobAbatement

namespace DobAbatement

theorem foldl_min_le_init (l : List Int) (a : Int) : l.foldl min a ≤ a := by
  induction l generalizing a with
  | nil => exact le_refl a
  | cons b t ih => exact le_trans (ih (min a b)) (min_le_left a b)

theorem foldl_min_le_mem (l : List Int) (a x : Int) : x ∈ l → l.foldl min a ≤ x := by
  induction l generalizing a with
  | nil => intro hx; cases hx
  | cons b t ih =>
    intro hx
    rcases List.mem_cons.mp hx with rfl | hx
    · exact le_trans (foldl_min_le_init t (min a x)) (min_le_right a x)
    · exact ih (min a b) hx

theorem foldl_min_mem (l : List Int) (a : Int) : l.foldl min a = a ∨ l.foldl min a ∈ l := by
  induction l generalizing a with
  | nil => left; rfl
  | cons b t ih =>
    rcases ih (min a b) with h | h
    · rcases min_choice a b with hm | hm
      · left
        show t.foldl min (min a b) = a
        rw [h, hm]
      · right
        show t.foldl min (min a b) ∈ b :: t
        rw [h, hm]
        exact List.mem_cons_self b t
    · right
      exact List.mem_cons_of_mem b h

theorem jsMathMin_spec (l : List Int) (m : Int) (h : jsMathMin l = some m) :
    m ∈ l ∧ ∀ x ∈ l, m ≤ x := by
  cases l with
  | nil => cases h
  | cons a t =>
    have hm : t.foldl min a = m := by simpa [jsMathMin] using h
    constructor
    · rcases foldl_min_mem t a with h1 | h1
      · rw [← hm, h1]
        exact List.mem_cons_self a t
      · rw [← hm]
        exact List.mem_cons_of_mem a h1
    · intro x hx
      rcases List.mem_cons.mp hx with rfl | hx
      · rw [← hm]
        exact foldl_min_le_init t x
      · rw [← hm]
        exact foldl_min_le_mem t a x hx

/-- Claim C3 as stated is false: the default 60 applies per item, not only
when no item deadline parses. With deadlines ["90 Days", "soon"] the code takes
min(90, 60) = 60 and lands on 2025-03-02, while the claimed rule (minimum of
the values that parse, 90 here) would land on 2025-04-01. -/
theorem codeAbatementDeadline_counterexample :
    codeAbatementDeadline (2025, 1, 1) ["90 Days", "soon"] = some (2025, 3, 2) ∧
    claimedAbatementDeadline (2025, 1, 1) ["90 Days", "soon"] = some (2025, 4, 1) ∧
    codeAbatementDeadline (2025, 1, 1) ["90 Days", "soon"] ≠
      claimedAbatementDeadline (2025, 1, 1) ["90 Days", "soon"] := by
  refine ⟨by decide, by decide, by decide⟩

/-- Claim C3 amended: for every valid service date and non-empty work-order
list, the record-level deadline is the service date plus the minimum of the
per-item deadline-day values, where each item contributes its parsed leading
integer when that is nonzero and the default 60 otherwise (the default applies
per item, not only when no item parses). The claim's concrete instance still
holds: 2025-01-01 with ["60 Days", "30 Days", "not a number"] gives 2025-01-31. -/
theorem codeAbatementDeadline_characterization :
    codeAbatementDeadline (2025, 1, 1) ["60 Days", "30 Days", "not a number"] =
      some (2025, 1, 31) ∧
    ∀ (service : Int × Int × Int) (texts : List String), texts ≠ [] →
      ∃ n : Int, codeAbatementDeadline service texts = some (addDays service n) ∧
        n ∈ texts.map deadlineDaysOfItem ∧
        ∀ t ∈ texts, n ≤ deadlineDaysOfItem t := by
  constructor
  · decide
  · intro service texts htexts
    cases texts with
    | nil => exact absurd rfl htexts
    | cons t0 ts =>
      refine ⟨(ts.map deadlineDaysOfItem).foldl min (deadlineDaysOfItem t0), rfl, ?_, ?_⟩
      · rw [List.map_cons]
        rcases foldl_min_mem (ts.map deadlineDaysOfItem) (deadlineDaysOfItem t0) with h | h
        · rw [h]
          exact List.mem_cons_self _ _
        · exact List.mem_cons_of_mem _ h
      · intro t ht
        rcases List.mem_cons.mp ht with rfl | ht
        · exact foldl_min_le_init _ _
        · exact foldl_min_le_mem _ _ _ (List.mem_map_of_mem _ ht)

/-- Witness for `codeAbatementDeadline_characterization` at the claim's own
concrete input. -/
theorem codeAbatementDeadline_characterization_witness :
    ∃ n : Int, codeAbatementDeadline (2025, 1, 1) ["60 Days", "30 Days", "not a number"] =
      some (addDays (2025, 1, 1) n) ∧
      n ∈ (["60 Days", "30 Days", "not a number"].map deadlineDaysOfItem) ∧
      ∀ t ∈ ["60 Days", "30 Days", "not a number"], n ≤ deadlineDaysOfItem t :=
  codeAbatementDeadline_characterization.2 (2025, 1, 1) _ (by decide)

/-- Claim C9: the record-level priority written by insert_records is the
minimum of the per-item priorities and the default 3, i.e. the unique member of
`3 :: priorities` that is a lower bound of all of them; in particular
priorities [2, 1, 3] yield 1. -/
theorem recordPriority_is_min :
    recordPriority [2, 1, 3] = 1 ∧
    ∀ ps : List Int, recordPriority ps ∈ (3 : Int) :: ps ∧
      ∀ x ∈ (3 : Int) :: ps, recordPriority ps ≤ x := by
  constructor
  · decide
  · intro ps
    have hj : jsMathMin (ps ++ [3]) = some (recordPriority ps) := by
      cases ps <;> rfl
    obtain ⟨hmem, hle⟩ := jsMathMin_spec _ _ hj
    constructor
    · rcases List.mem_append.mp hmem with h | h
      · exact List.mem_cons_of_mem _ h
      · simp only [List.mem_singleton] at h
        rw [h]
        exact List.mem_cons_self _ _
    · intro x hx
      rcases List.mem_cons.mp hx with rfl | hx
      · exact hle 3 (List.mem_append.mpr (Or.inr (List.mem_singleton_self 3)))
      · exact hle x (List.mem_append.mpr (Or.inl hx))

/-- Witness for `recordPriority_is_min` at the claim's own input [2, 1, 3]. -/
theorem recordPriority_is_min_witness :
    recordPriority [(2 : Int), 1, 3] ∈ (3 : Int) :: [(2 : Int), 1, 3] ∧
    recordPriority [(2 : Int), 1, 3] ≤ 2 :=
  ⟨(recordPriority_is_min.2 [2, 1, 3]).1,
   (recordPriority_is_min.2 [2, 1, 3]).2 2 (by decide)⟩

theorem parseFloatDigits_none_iff (sign : ℚ) (l : List Char) :
    parseFloatDigits sign l = none ↔ startsNumber l = false := by
  cases l with
  | nil => simp [parseFloatDigits, fracPart, startsNumber]
  | cons d rest =>
    by_cases hd : d.isDigit = true
    · simp [parseFloatDigits, fracPart, startsNumber, List.takeWhile_cons, hd]
    · have hd0 : d.isDigit = false := by simpa using hd
      by_cases hdot : d = '.'
      · subst hdot
        cases rest with
        | nil =>
          simp [parseFloatDigits, fracPart, startsNumber, headIsDigit,
            List.takeWhile_cons, List.dropWhile_cons, hd0]
        | cons e rest2 =>
          by_cases he : e.isDigit = true
          · simp [parseFloatDigits, fracPart, startsNumber, headIsDigit,
              List.takeWhile_cons, List.dropWhile_cons, hd0, he]
          · have he0 : e.isDigit = false := by simpa using he
            simp [parseFloatDigits, fracPart, startsNumber, headIsDigit,
              List.takeWhile_cons, List.dropWhile_cons, hd0, he0]
      · simp [parseFloatDigits, fracPart, startsNumber, headIsDigit,
          List.takeWhile_cons, List.dropWhile_cons, hd0, hdot]

/-- Claim C7 as stated is false in its universal part: `parseDate` does not
validate that the parts are numeric, so the malformed date "a/b/c" yields
"c-0a-0b" (with zero padding), not null; and `parseFine` accepts trailing
garbage, so the malformed amount "$12abc" yields 12, not null. -/
theorem parsers_malformed_counterexample :
    isValidMMDDYYYY "a/b/c" = false ∧
    parseDateJS "a/b/c" = some "c-0a-0b" ∧
    parseDateJS "a/b/c" ≠ none ∧
    parseFine "$12abc" =
      some ((1 : ℚ) * ((digitsVal ['1', '2'] : ℚ)
        + (digitsVal ([] : List Char) : ℚ) / (10 : ℚ) ^ (([] : List Char)).length)) ∧
    parseFine "$12abc" ≠ none := by
  refine ⟨by decide, by decide, by decide, rfl, ?_⟩
  intro h
  rw [(rfl : parseFine "$12abc" =
    some ((1 : ℚ) * ((digitsVal ['1', '2'] : ℚ)
      + (digitsVal ([] : List Char) : ℚ) / (10 : ℚ) ^ (([] : List Char)).length)))] at h
  exact Option.noConfusion h

/-- Claim C7 amended: "$1,234.56" parses to 1234.56 and "02/15/2025" maps to
"2025-02-15"; neither parser can throw (both are total functions), but "null on
malformed input" holds only in the weaker sense the code implements: `parseFine`
is null exactly when the stripped string does not begin (after optional
whitespace and sign) with a digit or a dot followed by a digit, and `parseDate`
is null exactly when the input is empty or does not split on '/' into exactly
three parts — numeric content is not validated. -/
theorem parsers_characterization :
    parseFine "$1,234.56" = some (123456 / 100 : ℚ) ∧
    parseDateJS "02/15/2025" = some "2025-02-15" ∧
    (∀ s : String, parseFine s = none ↔ hasLeadingNumber (stripCurrency s) = false) ∧
    (∀ s : String, parseDateJS s = none ↔ (s = "" ∨ (jsSplit s '/').length ≠ 3)) := by
  refine ⟨?_, by decide, ?_, ?_⟩
  · have h : parseFine "$1,234.56" =
        some ((1 : ℚ) * ((digitsVal ['1', '2', '3', '4'] : ℚ)
          + (digitsVal ['5', '6'] : ℚ) / (10 : ℚ) ^ (['5', '6'] : List Char).length)) := rfl
    have hint : digitsVal ['1', '2', '3', '4'] = 1234 := by decide
    have hfrac : digitsVal ['5', '6'] = 56 := by decide
    rw [h, hint, hfrac]
    norm_num
  · intro s
    unfold parseFine parseFloatChars hasLeadingNumber
    exact parseFloatDigits_none_iff _ _
  · intro s
    unfold parseDateJS
    by_cases hs : s = ""
    · simp [hs]
    · rcases hsplit : jsSplit s '/' with _ | ⟨a, _ | ⟨b, _ | ⟨c, _ | ⟨d, t⟩⟩⟩⟩ <;>
        simp [hs]

end DobAbatement

namespace DobAbatement

theorem runMatchPhotos_rows (orgId violationId path : String)
    (items : List ViolationItemRow) (pages : List PageAnalysis) :
    (runMatchPhotos orgId violationId path items pages).rows =
      (pages.filter pageQualifies).map (mkPhotoRow orgId violationId path items) := by
  induction pages with
  | nil => rfl
  | cons p rest ih =>
    by_cases hq : pageQualifies p = true
    · simp [runMatchPhotos, List.filter_cons, hq, ih]
    · have hq0 : pageQualifies p = false := by simpa using hq
      simp [runMatchPhotos, List.filter_cons, hq0, ih]

theorem runMatchPhotos_matchedCount (orgId violationId path : String)
    (items : List ViolationItemRow) (pages : List PageAnalysis) :
    (runMatchPhotos orgId violationId path items pages).matchedCount =
      (pages.filter pageQualifies).length := by
  induction pages with
  | nil => rfl
  | cons p rest ih =>
    by_cases hq : pageQualifies p = true
    · simp [runMatchPhotos, List.filter_cons, hq, ih]
    · have hq0 : pageQualifies p = false := by simpa using hq
      simp [runMatchPhotos, List.filter_cons, hq0, ih]

theorem runMatchPhotos_unmatchedCount (orgId violationId path : String)
    (items : List ViolationItemRow) (pages : List PageAnalysis) :
    (runMatchPhotos orgId violationId path items pages).unmatchedCount =
      pagesUnmatchedCount items pages := by
  induction pages with
  | nil => rfl
  | cons p rest ih =>
    by_cases hq : pageQualifies p = true
    · by_cases hn : (findMatch items (p.violation_code.getD "")).isNone = true
      · simp [runMatchPhotos, pagesUnmatchedCount, List.filter_cons, hq, hn, ih,
          Nat.add_comm]
      · have hn0 : (findMatch items (p.violation_code.getD "")).isNone = false :=
          Bool.eq_false_iff.mpr hn
        simp [runMatchPhotos, pagesUnmatchedCount, List.filter_cons, hq, hn0, ih]
    · have hq0 : pageQualifies p = false := by simpa using hq
      simp [runMatchPhotos, pagesUnmatchedCount, List.filter_cons, hq0, ih]

/-- Claim C5 as stated is false in its counter part: `matchedCount` increments
on every successful insert, matched or not. With one qualifying page whose code
"X" matches no item, the code records photos_matched = 1 even though zero pages
were matched to an item (the row itself is correctly retained with a null item
link and photos_unmatched = 1). -/
theorem photosMatchedCounter_counterexample :
    (runMatchPhotos "org" "vio" "path" c5Items [c5Page]).matchedCount = 1 ∧
    (runMatchPhotos "org" "vio" "path" c5Items [c5Page]).unmatchedCount = 1 ∧
    ((runMatchPhotos "org" "vio" "path" c5Items [c5Page]).rows.map
      (fun r => r.violation_item_id)) = [none] ∧
    pagesMatchedCount c5Items [c5Page] = 0 ∧
    (1 : Nat) ≠ 0 := by
  refine ⟨by decide, by decide, by decide, by decide, by decide⟩

/-- Claim C5 amended: exactly one photo row is written per qualifying page
(evidence photo with a truthy code), in page order, and no row otherwise; an
unmatched page's row carries a null item link; `photos_matched` records the
number of successfully inserted photo rows — i.e. ALL qualifying pages, matched
or not — while `photos_unmatched` records the number of qualifying pages whose
code matched no item. -/
theorem runMatchPhotos_characterization (orgId violationId path : String)
    (items : List ViolationItemRow) (pages : List PageAnalysis) :
    (runMatchPhotos orgId violationId path items pages).rows =
      (pages.filter pageQualifies).map (mkPhotoRow orgId violationId path items) ∧
    (runMatchPhotos orgId violationId path items pages).matchedCount =
      (pages.filter pageQualifies).length ∧
    (runMatchPhotos orgId violationId path items pages).unmatchedCount =
      pagesUnmatchedCount items pages ∧
    ((runMatchPhotos orgId violationId path items pages).rows.map
        (fun r => r.violation_item_id)) =
      (pages.filter pageQualifies).map
        (fun p => (findMatch items (p.violation_code.getD "")).map (fun i => i.id)) := by
  refine ⟨runMatchPhotos_rows orgId violationId path items pages,
    runMatchPhotos_matchedCount orgId violationId path items pages,
    runMatchPhotos_unmatchedCount orgId violationId path items pages, ?_⟩
  rw [runMatchPhotos_rows, List.map_map]
  rfl

/-- Claim C4 as stated is false in its concrete example: the second item's code
"12-G DCMR  §309.1" has no whitespace between `§` and the number, so collapsing
whitespace runs yields "12-g dcmr §309.1", which is NOT equal to the page's
normalized code "12-g dcmr § 309.1" — the two items do not normalize
identically and the second does not match the page. -/
theorem normalizeCode_counterexample :
    normalizeCode "12-G DCMR § 309.1" = normalizeCode c4PageCode ∧
    normalizeCode "12-G DCMR  §309.1" ≠ normalizeCode c4PageCode ∧
    findMatch [c4Item2] c4PageCode = none ∧
    findMatch [c4Item1, c4Item2] c4PageCode = some c4Item1 := by
  refine ⟨by decide, by decide, by decide, by decide⟩

/-- Claim C4 amended: normalization collapses internal whitespace runs to
single spaces, trims, and lowercases, and the match is the first item in list
order whose normalized code equals the page's normalized code exactly (no
fuzzy matching). Codes "12-G DCMR § 309.1" and "12-G  DCMR §  309.1" (a
whitespace-only variant) both normalize to match the page code
"12-g dcmr § 309.1", and the first item is selected when duplicates normalize
identically. -/
theorem normalizeCode_first_match_characterization :
    normalizeCode "12-G DCMR § 309.1" = normalizeCode c4PageCode ∧
    normalizeCode "12-G  DCMR §  309.1" = normalizeCode c4PageCode ∧
    (∀ (item : ViolationItemRow) (rest : List ViolationItemRow) (pageCode : String),
      itemMatches pageCode item = true →
      findMatch (item :: rest) pageCode = some item) ∧
    (∀ (items : List ViolationItemRow) (pageCode : String) (item : ViolationItemRow),
      findMatch items pageCode = some item → itemMatches pageCode item = true) := by
  refine ⟨by decide, by decide, ?_, ?_⟩
  · intro item rest pageCode h
    unfold findMatch
    rw [List.find?_cons_of_pos _ h]
  · intro items pageCode item h
    exact List.find?_some h

/-- Witness for `normalizeCode_first_match_characterization`: the first of two
items matching the page code is selected, and a selected item does satisfy the
exact normalized-equality test. -/
theorem normalizeCode_first_match_witness :
    findMatch [c4Item1, c4Item2] c4PageCode = some c4Item1 ∧
    itemMatches c4PageCode c4Item1 = true :=
  ⟨normalizeCode_first_match_characterization.2.2.1 c4Item1 [c4Item2] c4PageCode
      (by decide),
    normalizeCode_first_match_characterization.2.2.2 [c4Item1, c4Item2] c4PageCode
      c4Item1 (by decide)⟩

/-- Claim C10: every photo row created by match_photos has photo_type
INSPECTOR and status APPROVED (never PENDING_REVIEW), carries the source PDF's
storage path, and takes its page number and matched violation code from the
qualifying page it was created for, with the item link given by the
first-match lookup. -/
theorem photoRow_invariants (orgId violationId path : String)
    (items : List ViolationItemRow) (pages : List PageAnalysis) (row : PhotoRow)
    (hrow : row ∈ (runMatchPhotos orgId violationId path items pages).rows) :
    row.photo_type = "INSPECTOR" ∧ row.status = "APPROVED" ∧
    row.status ≠ "PENDING_REVIEW" ∧ row.storage_path = path ∧
    ∃ p ∈ pages, pageQualifies p = true ∧ row.page_number = p.page_number ∧
      row.matched_violation_code = p.violation_code ∧
      row.violation_item_id =
        (findMatch items (p.violation_code.getD "")).map (fun i => i.id) := by
  rw [runMatchPhotos_rows] at hrow
  rcases List.mem_map.mp hrow with ⟨p, hp, rfl⟩
  have hpq := List.mem_filter.mp hp
  exact ⟨rfl, rfl, by simp [mkPhotoRow], rfl,
    ⟨p, hpq.1, hpq.2, rfl, rfl, rfl⟩⟩

/-- Witness for `photoRow_invariants` at the concrete unmatched evidence page. -/
theorem photoRow_invariants_witness :
    (mkPhotoRow "org" "vio" "path" c5Items c5Page).photo_type = "INSPECTOR" ∧
    (mkPhotoRow "org" "vio" "path" c5Items c5Page).status = "APPROVED" ∧
    (mkPhotoRow "org" "vio" "path" c5Items c5Page).status ≠ "PENDING_REVIEW" ∧
    (mkPhotoRow "org" "vio" "path" c5Items c5Page).storage_path = "path" ∧
    ∃ p ∈ [c5Page], pageQualifies p = true ∧
      (mkPhotoRow "org" "vio" "path" c5Items c5Page).page_number = p.page_number ∧
      (mkPhotoRow "org" "vio" "path" c5Items c5Page).matched_violation_code =
        p.violation_code ∧
      (mkPhotoRow "org" "vio" "path" c5Items c5Page).violation_item_id =
        (findMatch c5Items (p.violation_code.getD "")).map (fun i => i.id) :=
  photoRow_invariants "org" "vio" "path" c5Items [c5Page]
    (mkPhotoRow "org" "vio" "path" c5Items c5Page) (by decide)

end DobAbatement
